import Mathlib

/-
  Shallow embedding of the vultan revision scheduling engine.

  Conventions of the embedding:
  - Rust f64 values are modelled as exact rationals.
  - Timestamps (chrono DateTime<Utc>) are modelled as whole seconds (an integer);
    chrono Duration::seconds is integer addition of seconds.
  - The Rust cast `as i64` on a nonnegative or negative f64 truncates toward zero,
    modelled by truncated integer division of a rational.
  - The hidden clock Utc::now() is made an explicit `now` parameter.
  - The FnMut scoring callback is modelled as a state-passing function
    over an arbitrary callback-state type.
  - The non-terminating `while` loop of revise_until_none_fail is modelled
    with explicit fuel; `none` means the fuel ran out.
-/

namespace Vultan

/-- Modelled from the spec: the module `score` of src/state/card is not present
under src (only its importers are); the spec defines RevisionOutcome as the
closed set Fail, Hard, Pass, Easy, and those four variants are matched
exhaustively by the present code of revision_settings.rs and hand.rs. -/
inductive Score where
  | fail
  | hard
  | pass
  | easy
deriving DecidableEq

/-- Embeds IntervalCoefficients of src/state/deck/interval_coefficients.rs. -/
structure IntervalCoefficients where
  pass_coef : ℚ
  easy_coef : ℚ
  fail_coef : ℚ
deriving DecidableEq

/-- Truncation of a rational toward zero, the behaviour of the Rust cast
`as i64` from f64 (saturation at the i64 bounds is not modelled). -/
def truncToInt (q : ℚ) : ℤ :=
  Int.tdiv q.num (q.den : ℤ)

/-- Embeds RevisionSettings of src/state/card/revision_settings.rs.
The field due is a timestamp in whole seconds. -/
structure RevisionSettings where
  due : ℤ
  interval : ℚ
  memorisation_factor : ℚ
deriving DecidableEq

/-- Embeds IntervalCalculationSettings of src/state/card/revision_settings.rs. -/
structure IntervalCalculationSettings where
  coefficients : IntervalCoefficients
  days_overdue : ℚ
deriving DecidableEq

/-- Embeds PossibleIntervals of src/state/card/revision_settings.rs, a
positional 4-tuple (fail, hard, pass, easy) given field names here. -/
structure PossibleIntervals where
  fail_interval : ℚ
  hard_interval : ℚ
  pass_interval : ℚ
  easy_interval : ℚ
deriving DecidableEq

/-- Embeds create_interval_calculation_settings: days overdue is the
whole-hour count of (now - due), divided by 24; chrono num_hours truncates
toward zero, as does Int.tdiv. -/
def RevisionSettings.create_interval_calculation_settings (self : RevisionSettings)
    (coefficients : IntervalCoefficients) (now : ℤ) : IntervalCalculationSettings :=
  let present := now
  let past := self.due
  let days_overdue_quantised_by_hour : ℚ := ((Int.tdiv (present - past) 3600 : ℤ) : ℚ) / 24
  { coefficients := coefficients, days_overdue := days_overdue_quantised_by_hour }

/-- Embeds calculate_fail_interval of revision_settings.rs. -/
def RevisionSettings.calculate_fail_interval (self : RevisionSettings)
    (calculation_settings : IntervalCalculationSettings) : ℚ :=
  self.interval * calculation_settings.coefficients.fail_coef

/-- Embeds calculate_hard_interval of revision_settings.rs. -/
def RevisionSettings.calculate_hard_interval (self : RevisionSettings)
    (calculation_settings : IntervalCalculationSettings) : ℚ :=
  let fallback := self.interval + 1
  let hard_coef : ℚ := 1.2
  let base_num_days := self.interval + calculation_settings.days_overdue * 0.25
  max fallback (hard_coef * base_num_days * calculation_settings.coefficients.pass_coef)

/-- Embeds calculate_pass_interval of revision_settings.rs. -/
def RevisionSettings.calculate_pass_interval (self : RevisionSettings)
    (calculation_settings : IntervalCalculationSettings) (hard_interval : ℚ) : ℚ :=
  let fallback := hard_interval + 1
  let base_num_days := self.interval + calculation_settings.days_overdue * 0.5
  let memorisation_coef := self.memorisation_factor * 0.001
  let pass_coef := calculation_settings.coefficients.pass_coef
  max fallback (base_num_days * memorisation_coef * pass_coef)

/-- Embeds calculate_easy_interval of revision_settings.rs. -/
def RevisionSettings.calculate_easy_interval (self : RevisionSettings)
    (calculation_settings : IntervalCalculationSettings) (pass_interval : ℚ) : ℚ :=
  let fallback := pass_interval + 1
  let base_num_days := self.interval + calculation_settings.days_overdue
  let memorisation_coef := self.memorisation_factor * 0.001
  let pass_coef := calculation_settings.coefficients.pass_coef
  let easy_coef := calculation_settings.coefficients.easy_coef
  max fallback (base_num_days * memorisation_coef * pass_coef * easy_coef)

/-- Embeds calculate_possible_intervals of revision_settings.rs. -/
def RevisionSettings.calculate_possible_intervals (self : RevisionSettings)
    (coefficients : IntervalCoefficients) (now : ℤ) : PossibleIntervals :=
  let calculation_settings := self.create_interval_calculation_settings coefficients now
  let fail_interval := self.calculate_fail_interval calculation_settings
  let hard_interval := self.calculate_hard_interval calculation_settings
  let pass_interval := self.calculate_pass_interval calculation_settings hard_interval
  let easy_interval := self.calculate_easy_interval calculation_settings pass_interval
  ⟨fail_interval, hard_interval, pass_interval, easy_interval⟩

/-- Embeds calculate_new_interval of revision_settings.rs. -/
def RevisionSettings.calculate_new_interval (self : RevisionSettings) (score : Score)
    (coefficients : IntervalCoefficients) (now : ℤ) : ℚ :=
  let pi := self.calculate_possible_intervals coefficients now
  match score with
  | Score.fail => pi.fail_interval
  | Score.hard => pi.hard_interval
  | Score.pass => pi.pass_interval
  | Score.easy => pi.easy_interval

/-- Embeds calculate_new_due_date: the new due date is the old due date
plus the new interval converted to whole seconds (truncating cast). -/
def RevisionSettings.calculate_new_due_date (self : RevisionSettings)
    (new_interval : ℚ) : ℤ :=
  let seconds_in_minute : ℚ := 60
  let minutes_in_hour : ℚ := 60
  let hours_in_day : ℚ := 24
  let seconds_in_interval := seconds_in_minute * minutes_in_hour * hours_in_day * new_interval
  self.due + truncToInt seconds_in_interval

/-- Embeds calculate_new_memorisation_factor of revision_settings.rs. -/
def RevisionSettings.calculate_new_memorisation_factor (self : RevisionSettings)
    (score : Score) : ℚ :=
  let default_factor : ℚ := 1300
  match score with
  | Score.fail => max default_factor (self.memorisation_factor - 200)
  | Score.hard => max default_factor (self.memorisation_factor - 150)
  | Score.pass => max default_factor self.memorisation_factor
  | Score.easy => max default_factor (self.memorisation_factor + 150)

/-- Embeds transform of revision_settings.rs. -/
def RevisionSettings.transform (self : RevisionSettings) (score : Score)
    (coefficients : IntervalCoefficients) (now : ℤ) : RevisionSettings :=
  let new_interval := self.calculate_new_interval score coefficients now
  { due := self.calculate_new_due_date new_interval,
    interval := new_interval,
    memorisation_factor := self.calculate_new_memorisation_factor score }

/-- Embeds Card of src/state/card.rs. -/
structure Card where
  path : String
  decks : List String
  question : String
  answer : String
  revision_settings : RevisionSettings
deriving DecidableEq

/-- Embeds with_revision_settings of card.rs. -/
def Card.with_revision_settings (self : Card)
    (revision_settings : RevisionSettings) : Card :=
  { self with revision_settings := revision_settings }

/-- Embeds Card transform: delegate to RevisionSettings.transform, keep content. -/
def Card.transform (self : Card) (score : Score)
    (interval_coefficients : IntervalCoefficients) (now : ℤ) : Card :=
  self.with_revision_settings
    (self.revision_settings.transform score interval_coefficients now)

/-- Embeds is_due of card.rs: Utc::now() >= self.revision_settings.due. -/
def Card.is_due (self : Card) (now : ℤ) : Bool :=
  decide (self.revision_settings.due ≤ now)

/-- Embeds in_deck of card.rs: any deck membership token equals the deck id. -/
def Card.in_deck (self : Card) (deck_id : String) : Bool :=
  self.decks.any (fun d => d == deck_id)

/-- Embeds uid of card.rs: the source path. -/
def Card.uid (self : Card) : String :=
  self.path

/-- Embeds the Merge impl for Card of card.rs: keep own content, take the
revision settings of the other card. -/
def Card.merge (self : Card) (other : Card) : Card :=
  self.with_revision_settings other.revision_settings

/-- Embeds Deck of src/state/deck.rs. -/
structure Deck where
  name : String
  card_paths : List String
  interval_coefficients : IntervalCoefficients
deriving DecidableEq

/-- Embeds HandError of src/state/hand.rs. -/
inductive HandError where
  | emptyDeck (name : String)
  | noDueCards (name : String)
  | receivedExitApplicationSignal
deriving DecidableEq

/-- Embeds Hand of src/state/hand.rs (the queue of cards plus deck coefficients). -/
structure Hand where
  queue : List Card
  interval_coefficients : IntervalCoefficients
deriving DecidableEq

/-- Embeds filter_cards_in_deck of hand.rs. -/
def Hand.filter_cards_in_deck (deck : Deck) (cards : List Card) : List Card :=
  cards.filter (fun c => c.in_deck deck.name)

/-- Embeds filter_due_cards of hand.rs. -/
def Hand.filter_due_cards (cards : List Card) (now : ℤ) : List Card :=
  cards.filter (fun c => c.is_due now)

/-- Embeds Hand::from of hand.rs (`from` is reserved in Lean, hence
fromDeck).  The random shuffle is the injectable dependency of the design
notes, passed as the function argument shuffle_cards. -/
def Hand.fromDeck (deck : Deck) (cards : List Card) (now : ℤ)
    (shuffle_cards : List Card → List Card) : Except HandError Hand :=
  let deck_cards := Hand.filter_cards_in_deck deck cards
  let n_cards_in_deck := deck_cards.length
  let due_cards := Hand.filter_due_cards deck_cards now
  let n_due_cards := due_cards.length
  let hand_cards := shuffle_cards due_cards
  match n_cards_in_deck, n_due_cards with
  | 0, _ => Except.error (HandError.emptyDeck deck.name)
  | _ + 1, 0 => Except.error (HandError.noDueCards deck.name)
  | _ + 1, _ + 1 =>
      Except.ok { queue := hand_cards,
                  interval_coefficients := deck.interval_coefficients }

/-- Result of one scoring-callback invocation: a score, the cancellation
signal (the anyhow error that downcasts to ReceivedExitApplicationSignal),
or any other callback error (an anyhow error that does not so downcast). -/
inductive CbResult where
  | score (s : Score)
  | exitSignal
  | otherError
deriving DecidableEq

/-- Embeds the loop body of revise_until_none_fail of hand.rs.  The FnMut
callback is a state-passing function; fuel bounds the number of iterations
(the Rust loop has no such bound and an always-failing callback never
terminates); `none` is fuel exhaustion.  n_remaining is recorded before
popping. -/
def reviseLoop {σ : Type} (coefficients : IntervalCoefficients) (now : ℤ)
    (read_score : σ → Card → Nat → σ × CbResult) :
    Nat → σ → List Card → List Card → Option (List Card)
  | _, _, [], output => some output
  | 0, _, _ :: _, _ => none
  | fuel + 1, s, card :: rest, output =>
    let n_remaining := rest.length + 1
    let r := read_score s card n_remaining
    match r.2 with
    | CbResult.score sc =>
      if sc = Score.fail then
        reviseLoop coefficients now read_score fuel r.1
          (rest ++ [card.transform Score.fail coefficients now]) output
      else
        reviseLoop coefficients now read_score fuel r.1 rest
          (output ++ [card.transform sc coefficients now])
    | CbResult.exitSignal => some (output ++ card :: rest)
    | CbResult.otherError => reviseLoop coefficients now read_score fuel r.1 rest output

/-- Embeds revise_until_none_fail of hand.rs: run the loop on the queue of
the hand with an empty output list. -/
def Hand.revise_until_none_fail {σ : Type} (self : Hand) (now : ℤ)
    (read_score : σ → Card → Nat → σ × CbResult) (s0 : σ) (fuel : Nat) :
    Option (List Card) :=
  reviseLoop self.interval_coefficients now read_score fuel s0 self.queue []

/-- Follows the spec words for claim C3 (a one-pass reference run): every
card of the list is judged once, in order, and transformed exactly once with
the score the callback reported for it, threading the callback state. -/
def specOnePassTransform {σ : Type} (coefficients : IntervalCoefficients) (now : ℤ)
    (read_score : σ → Card → Nat → σ × CbResult) : σ → List Card → List Card
  | _, [] => []
  | s, card :: rest =>
    let r := read_score s card (rest.length + 1)
    (match r.2 with
     | CbResult.score sc => [card.transform sc coefficients now]
     | _ => []) ++ specOnePassTransform coefficients now read_score r.1 rest

/-- Follows the spec words for claim C5: the memorisation factor delta per
outcome (-200 Fail, -150 Hard, 0 Pass, +150 Easy). -/
def spec_factor_delta : Score → ℚ
  | Score.fail => -200
  | Score.hard => -150
  | Score.pass => 0
  | Score.easy => 150

/-- Embeds override_matching_values of src/state.rs: the HashMap is
modelled as a lookup function; every incoming item is inserted under its
uid, replacing any stored value at that key, later items replacing earlier
ones. -/
def override_matching_values (map : String → Option Card) (items : List Card) :
    String → Option Card :=
  items.foldl (fun m i => fun k => if k = i.uid then some i else m k) map

/-- Embeds merge_matching_values of src/state.rs: each incoming item whose
uid is already present is merged with the stored item first, then all are
inserted. -/
def merge_matching_values (map : String → Option Card) (items : List Card) :
    String → Option Card :=
  let overriding : List Card := items.map (fun i =>
    match map i.uid with
    | some item => i.merge item
    | none => i)
  override_matching_values map overriding

/-! Concrete fixtures used by witnesses and counterexamples. -/

/-- A concrete coefficient set (pass 1, easy 2, fail 0), as in the unit tests. -/
def ccoeffs : IntervalCoefficients := ⟨1, 2, 0⟩

/-- A concrete due card. -/
def cardA : Card := ⟨"a", ["d"], "q", "ans", ⟨0, 1, 2000⟩⟩

/-- A second concrete due card. -/
def cardB : Card := ⟨"b", ["d"], "q2", "ans2", ⟨0, 1, 2000⟩⟩

/-- A callback that always reports a non-cancellation error. -/
def cbOtherError : Unit → Card → Nat → Unit × CbResult :=
  fun _ _ _ => ((), CbResult.otherError)

/-- A callback that always signals cancellation. -/
def cbExit : Unit → Card → Nat → Unit × CbResult :=
  fun _ _ _ => ((), CbResult.exitSignal)

/-- A callback that always scores Pass. -/
def cbPass : Unit → Card → Nat → Unit × CbResult :=
  fun _ _ _ => ((), CbResult.score Score.pass)

/-- A callback that always scores Fail. -/
def cbFail : Unit → Card → Nat → Unit × CbResult :=
  fun _ _ _ => ((), CbResult.score Score.fail)

/-- A stateful callback: a non-cancellation error on the first invocation,
then the cancellation signal. -/
def cbErrorThenExit : Nat → Card → Nat → Nat × CbResult :=
  fun k _ _ => (k + 1, if k = 0 then CbResult.otherError else CbResult.exitSignal)

/-- A stateful callback: Fail on the first invocation, then Pass. -/
def cbFailThenPass : Nat → Card → Nat → Nat × CbResult :=
  fun k _ _ => (k + 1, if k = 0 then CbResult.score Score.fail else CbResult.score Score.pass)

/-- A persisted card with non-default scheduling state. -/
def cardStored : Card := ⟨"m", ["d1"], "oldq", "olda", ⟨100, 5, 1800⟩⟩

/-- A freshly extracted card with the same uid, new content, default scheduling. -/
def cardIncoming : Card := ⟨"m", ["d2"], "newq", "newa", ⟨0, 0, 1300⟩⟩

/-- A stored card map holding cardStored under its uid. -/
def storedMap : String → Option Card :=
  fun k => if k = "m" then some cardStored else none

/-- A concrete deck named d. -/
def deckD : Deck := ⟨"d", ["a"], ccoeffs⟩

/-! Helper lemmas about the session loop. -/

theorem reviseLoop_nil {σ : Type} (co : IntervalCoefficients) (now : ℤ)
    (cb : σ → Card → Nat → σ × CbResult) (fuel : Nat) (s : σ) (out : List Card) :
    reviseLoop co now cb fuel s [] out = some out := by
  cases fuel <;> rfl

theorem reviseLoop_cons {σ : Type} (co : IntervalCoefficients) (now : ℤ)
    (cb : σ → Card → Nat → σ × CbResult) (fuel : Nat) (s : σ) (card : Card)
    (rest out : List Card) :
    reviseLoop co now cb (fuel + 1) s (card :: rest) out =
      (match (cb s card (rest.length + 1)).2 with
       | CbResult.score sc =>
         if sc = Score.fail then
           reviseLoop co now cb fuel (cb s card (rest.length + 1)).1
             (rest ++ [card.transform Score.fail co now]) out
         else
           reviseLoop co now cb fuel (cb s card (rest.length + 1)).1 rest
             (out ++ [card.transform sc co now])
       | CbResult.exitSignal => some (out ++ card :: rest)
       | CbResult.otherError =>
           reviseLoop co now cb fuel (cb s card (rest.length + 1)).1 rest out) := rfl

theorem reviseLoop_length {σ : Type} (co : IntervalCoefficients) (now : ℤ)
    (cb : σ → Card → Nat → σ × CbResult)
    (hno : ∀ (s : σ) (c : Card) (n : Nat), (cb s c n).2 ≠ CbResult.otherError) :
    ∀ (fuel : Nat) (s : σ) (queue out res : List Card),
      reviseLoop co now cb fuel s queue out = some res →
      res.length = out.length + queue.length := by
  intro fuel
  induction fuel with
  | zero =>
    intro s queue out res h
    cases queue with
    | nil =>
      rw [reviseLoop_nil] at h
      cases h
      simp
    | cons card rest => cases h
  | succ fuel ih =>
    intro s queue out res h
    cases queue with
    | nil =>
      rw [reviseLoop_nil] at h
      cases h
      simp
    | cons card rest =>
      rw [reviseLoop_cons] at h
      cases hcb : (cb s card (rest.length + 1)).2 with
      | score sc =>
        rw [hcb] at h
        dsimp only at h
        by_cases hsc : sc = Score.fail
        · rw [if_pos hsc] at h
          have hlen := ih _ _ _ _ h
          simp only [List.length_append, List.length_cons, List.length_singleton,
            List.length_nil] at hlen ⊢
          omega
        · rw [if_neg hsc] at h
          have hlen := ih _ _ _ _ h
          simp only [List.length_append, List.length_cons, List.length_singleton,
            List.length_nil] at hlen ⊢
          omega
      | exitSignal =>
        rw [hcb] at h
        dsimp only at h
        cases h
        simp only [List.length_append, List.length_cons]
      | otherError => exact absurd hcb (hno s card (rest.length + 1))

/-! Claims about the session loop. -/

/-- Claim C1 (code_bug evaluation): at the failing input — a single-card queue
whose callback reports a non-cancellation error — revise_until_none_fail
silently discards the popped card, which the callback never judged, and
returns Ok with an empty output list.  The spec says the core must not
discard cards it never judged; the code keeps the card in neither the queue
nor the output. -/
theorem c1_non_cancel_error_discards_unjudged_card :
    Hand.revise_until_none_fail ⟨[cardA], ccoeffs⟩ 0 cbOtherError () 1 = some [] := rfl

/-- Claim C2 (counterexample): in a run on a two-card queue where the callback
reports a non-cancellation error for the first card and then signals
cancellation while n = 1 card remains, the output is [cardB], of length 1,
not the initial queue length 2 — the total-length clause of the claim fails. -/
theorem c2_counterexample_error_before_cancel :
    Hand.revise_until_none_fail ⟨[cardA, cardB], ccoeffs⟩ 0 cbErrorThenExit 0 2 = some [cardB]
    ∧ ¬ (([cardB] : List Card).length = ([cardA, cardB] : List Card).length) :=
  ⟨rfl, by decide⟩

/-- Claim C2 (amended): provided the callback never returns a non-cancellation
error, then (a) whenever the callback signals cancellation while
n = rest.length + 1 cards remain unprocessed (including the card currently
being judged), the loop terminates immediately and returns the
already-judged output (in its already-transformed form) followed by exactly
those n cards unmodified and in their current queue order, and (b) every
result of revise_until_none_fail has length equal to the initial queue
length. -/
theorem c2_cancellation_lossless {σ : Type} (co : IntervalCoefficients) (now : ℤ)
    (cb : σ → Card → Nat → σ × CbResult)
    (hno : ∀ (s : σ) (c : Card) (n : Nat), (cb s c n).2 ≠ CbResult.otherError) :
    (∀ (fuel : Nat) (s : σ) (card : Card) (rest output : List Card),
      (cb s card (rest.length + 1)).2 = CbResult.exitSignal →
      reviseLoop co now cb (fuel + 1) s (card :: rest) output = some (output ++ card :: rest))
    ∧ (∀ (fuel : Nat) (s : σ) (queue res : List Card),
      Hand.revise_until_none_fail ⟨queue, co⟩ now cb s fuel = some res →
      res.length = queue.length) := by
  constructor
  · intro fuel s card rest output hexit
    rw [reviseLoop_cons, hexit]
  · intro fuel s queue res h
    have hlen := reviseLoop_length co now cb hno fuel s queue [] res h
    simpa using hlen

/-- Witness for c2_cancellation_lossless at a concrete input. -/
theorem c2_cancellation_lossless_witness :
    reviseLoop ccoeffs 0 cbExit 1 () [cardA] [] = some ([] ++ cardA :: [])
    ∧ (Hand.revise_until_none_fail ⟨[cardA], ccoeffs⟩ 0 cbExit () 1 = some [cardA] →
        ([cardA] : List Card).length = ([cardA] : List Card).length) :=
  have hno : ∀ (s : Unit) (c : Card) (n : Nat), (cbExit s c n).2 ≠ CbResult.otherError :=
    fun _ _ _ h => nomatch h
  ⟨(c2_cancellation_lossless ccoeffs 0 cbExit hno).1 0 () cardA [] [] rfl,
   fun h => (c2_cancellation_lossless ccoeffs 0 cbExit hno).2 1 () [cardA] [cardA] h⟩

theorem specOnePassTransform_cons {σ : Type} (co : IntervalCoefficients) (now : ℤ)
    (cb : σ → Card → Nat → σ × CbResult) (s : σ) (card : Card) (rest : List Card)
    (sc : Score) (hsc : (cb s card (rest.length + 1)).2 = CbResult.score sc) :
    specOnePassTransform co now cb s (card :: rest) =
      card.transform sc co now :: specOnePassTransform co now cb (cb s card (rest.length + 1)).1 rest := by
  simp only [specOnePassTransform, hsc]
  rfl

theorem reviseLoop_no_fail {σ : Type} (co : IntervalCoefficients) (now : ℤ)
    (cb : σ → Card → Nat → σ × CbResult)
    (hscore : ∀ (s : σ) (c : Card) (n : Nat),
      ∃ sc, sc ≠ Score.fail ∧ (cb s c n).2 = CbResult.score sc) :
    ∀ (queue : List Card) (fuel : Nat) (s : σ) (out : List Card), queue.length ≤ fuel →
      reviseLoop co now cb fuel s queue out
        = some (out ++ specOnePassTransform co now cb s queue) := by
  intro queue
  induction queue with
  | nil =>
    intro fuel s out _
    rw [reviseLoop_nil]
    simp [specOnePassTransform]
  | cons card rest ih =>
    intro fuel s out hfuel
    cases fuel with
    | zero => simp at hfuel
    | succ fuel =>
      obtain ⟨sc, hne, heq⟩ := hscore s card (rest.length + 1)
      rw [reviseLoop_cons, heq]
      dsimp only
      rw [if_neg hne]
      rw [ih fuel _ _ (by simp at hfuel; omega)]
      rw [specOnePassTransform_cons co now cb s card rest sc heq]
      simp

theorem specOnePassTransform_length {σ : Type} (co : IntervalCoefficients) (now : ℤ)
    (cb : σ → Card → Nat → σ × CbResult)
    (hscore : ∀ (s : σ) (c : Card) (n : Nat),
      ∃ sc, sc ≠ Score.fail ∧ (cb s c n).2 = CbResult.score sc) :
    ∀ (queue : List Card) (s : σ),
      (specOnePassTransform co now cb s queue).length = queue.length := by
  intro queue
  induction queue with
  | nil => intro s; rfl
  | cons card rest ih =>
    intro s
    obtain ⟨sc, _, heq⟩ := hscore s card (rest.length + 1)
    rw [specOnePassTransform_cons co now cb s card rest sc heq]
    simp [ih]

/-- Claim C3: for a callback that never returns Fail and never returns an
error, revise_until_none_fail terminates (fuel equal to the queue length
suffices, and the run ends by draining the queue), returning exactly the
one-pass output in which each card of the queue is transformed exactly once
with the score the callback reported for it; the output length equals the
initial queue length. -/
theorem c3_no_fail_terminates_one_pass {σ : Type} (co : IntervalCoefficients) (now : ℤ)
    (cb : σ → Card → Nat → σ × CbResult)
    (hscore : ∀ (s : σ) (c : Card) (n : Nat),
      ∃ sc, sc ≠ Score.fail ∧ (cb s c n).2 = CbResult.score sc) :
    ∀ (fuel : Nat) (s : σ) (queue : List Card), queue.length ≤ fuel →
      Hand.revise_until_none_fail ⟨queue, co⟩ now cb s fuel
          = some (specOnePassTransform co now cb s queue)
      ∧ (specOnePassTransform co now cb s queue).length = queue.length := by
  intro fuel s queue hfuel
  constructor
  · have h := reviseLoop_no_fail co now cb hscore queue fuel s [] hfuel
    simpa [Hand.revise_until_none_fail] using h
  · exact specOnePassTransform_length co now cb hscore queue s

/-- Witness for c3_no_fail_terminates_one_pass at a concrete input. -/
theorem c3_no_fail_terminates_one_pass_witness :
    Hand.revise_until_none_fail ⟨[cardA], ccoeffs⟩ 0 cbPass () 1
        = some (specOnePassTransform ccoeffs 0 cbPass () [cardA])
    ∧ (specOnePassTransform ccoeffs 0 cbPass () [cardA]).length
        = ([cardA] : List Card).length :=
  c3_no_fail_terminates_one_pass ccoeffs 0 cbPass
    (fun _ _ _ => ⟨Score.pass, by decide, rfl⟩) 1 () [cardA] (by decide)

/-- Claim C8 (counterexample): with a single-card queue, a card scored Fail is
the very next card presented.  The callback fails the first presentation and
passes the second; the output shows the second presentation judged the
transformed failed card, and the queue reached after the Fail step has that
card at its head (the next card popped). -/
theorem c8_counterexample_single_card_presented_immediately :
    Hand.revise_until_none_fail ⟨[cardA], ccoeffs⟩ 0 cbFailThenPass 0 2
        = some [(cardA.transform Score.fail ccoeffs 0).transform Score.pass ccoeffs 0]
    ∧ reviseLoop ccoeffs 0 cbFailThenPass 2 0 [cardA] []
        = reviseLoop ccoeffs 0 cbFailThenPass 1 1 [cardA.transform Score.fail ccoeffs 0] []
    ∧ ([cardA.transform Score.fail ccoeffs 0] : List Card).head?
        = some (cardA.transform Score.fail ccoeffs 0) :=
  ⟨rfl, rfl, rfl⟩

/-- Claim C8 (amended): a card whose callback result is Fail is transformed
with outcome Fail and pushed to the back of the queue — it stays in the
session (never discarded) and is re-presented once the queue reaches it
again; when at least one other card remains in the queue, the very next card
presented is the former second card of the queue, not the failed one (with a
single-card queue the failed card is presented immediately next). -/
theorem c8_fail_requeued_at_back {σ : Type} (co : IntervalCoefficients) (now : ℤ)
    (cb : σ → Card → Nat → σ × CbResult) (fuel : Nat) (s s2 : σ) (card : Card)
    (rest output : List Card)
    (h : cb s card (rest.length + 1) = (s2, CbResult.score Score.fail)) :
    reviseLoop co now cb (fuel + 1) s (card :: rest) output
        = reviseLoop co now cb fuel s2 (rest ++ [card.transform Score.fail co now]) output
    ∧ (rest ++ [card.transform Score.fail co now]).getLast?
        = some (card.transform Score.fail co now)
    ∧ (rest ≠ [] →
        (rest ++ [card.transform Score.fail co now]).head? = rest.head?) := by
  refine ⟨?_, ?_, ?_⟩
  · rw [reviseLoop_cons, h]
    rfl
  · exact List.getLast?_concat _
  · intro hne
    cases rest with
    | nil => exact absurd rfl hne
    | cons b l => rfl

/-- Witness for c8_fail_requeued_at_back at a concrete input. -/
theorem c8_fail_requeued_at_back_witness :
    reviseLoop ccoeffs 0 cbFail 1 () (cardA :: [cardB]) []
        = reviseLoop ccoeffs 0 cbFail 0 () ([cardB] ++ [cardA.transform Score.fail ccoeffs 0]) []
    ∧ ([cardB] ++ [cardA.transform Score.fail ccoeffs 0]).getLast?
        = some (cardA.transform Score.fail ccoeffs 0)
    ∧ (([cardB] : List Card) ≠ [] →
        ([cardB] ++ [cardA.transform Score.fail ccoeffs 0]).head?
          = ([cardB] : List Card).head?) :=
  c8_fail_requeued_at_back ccoeffs 0 cbFail 0 () () cardA [cardB] [] rfl

/-! Claims about the interval engine arithmetic. -/

/-- Claim C4 (counterexample): with a starting memorisation factor of 1250
(which is below 1300) and outcome Easy, transform produces a factor of 1400,
not 1300 — the claim that any starting factor below 1300 yields exactly 1300
fails for Easy. -/
theorem c4_counterexample_easy_from_1250 :
    ((⟨0, 0, 1250⟩ : RevisionSettings).transform Score.easy ccoeffs 0).memorisation_factor = 1400
    ∧ ¬ ((1400 : ℚ) = 1300)
    ∧ (⟨0, 0, 1250⟩ : RevisionSettings).memorisation_factor < 1300 :=
  ⟨by with_unfolding_all rfl, by decide, by decide⟩

/-- Claim C4 (amended): for every outcome and every starting factor strictly
below 1300, the factor produced by transform is at least 1300; it is exactly
1300 for every outcome other than Easy, and for Easy it is
max 1300 (factor + 150), which exceeds 1300 once the starting factor exceeds
1150. -/
theorem c4_factor_floor_below_1300 (rs : RevisionSettings) (score : Score)
    (co : IntervalCoefficients) (now : ℤ) (h : rs.memorisation_factor < 1300) :
    1300 ≤ (rs.transform score co now).memorisation_factor
    ∧ (score ≠ Score.easy → (rs.transform score co now).memorisation_factor = 1300)
    ∧ (score = Score.easy →
        (rs.transform score co now).memorisation_factor
          = max 1300 (rs.memorisation_factor + 150)) := by
  refine ⟨?_, ?_, ?_⟩
  · cases score <;>
      simp only [RevisionSettings.transform, RevisionSettings.calculate_new_memorisation_factor] <;>
      exact le_max_left _ _
  · intro hne
    cases score with
    | fail =>
      simp only [RevisionSettings.transform, RevisionSettings.calculate_new_memorisation_factor]
      exact max_eq_left (by linarith)
    | hard =>
      simp only [RevisionSettings.transform, RevisionSettings.calculate_new_memorisation_factor]
      exact max_eq_left (by linarith)
    | pass =>
      simp only [RevisionSettings.transform, RevisionSettings.calculate_new_memorisation_factor]
      exact max_eq_left (by linarith)
    | easy => exact absurd rfl hne
  · intro he
    subst he
    simp only [RevisionSettings.transform, RevisionSettings.calculate_new_memorisation_factor]

/-- Witness for c4_factor_floor_below_1300 at a concrete input. -/
theorem c4_factor_floor_below_1300_witness :
    1300 ≤ ((⟨0, 0, 1200⟩ : RevisionSettings).transform Score.hard ccoeffs 0).memorisation_factor
    ∧ (Score.hard ≠ Score.easy →
        ((⟨0, 0, 1200⟩ : RevisionSettings).transform Score.hard ccoeffs 0).memorisation_factor
          = 1300)
    ∧ (Score.hard = Score.easy →
        ((⟨0, 0, 1200⟩ : RevisionSettings).transform Score.hard ccoeffs 0).memorisation_factor
          = max 1300 ((⟨0, 0, 1200⟩ : RevisionSettings).memorisation_factor + 150)) :=
  c4_factor_floor_below_1300 ⟨0, 0, 1200⟩ Score.hard ccoeffs 0 (by decide)

/-- Claim C5: for every scheduling state, outcome and coefficient set (and any
clock value), the factor produced by transform is
max 1300 (old factor + delta) with delta -200 for Fail, -150 for Hard, 0 for
Pass and +150 for Easy, and is in particular always at least 1300. -/
theorem c5_factor_update_formula (rs : RevisionSettings) (score : Score)
    (co : IntervalCoefficients) (now : ℤ) :
    (rs.transform score co now).memorisation_factor
        = max 1300 (rs.memorisation_factor + spec_factor_delta score)
    ∧ 1300 ≤ (rs.transform score co now).memorisation_factor := by
  constructor
  · cases score <;>
      simp only [RevisionSettings.transform, RevisionSettings.calculate_new_memorisation_factor,
        spec_factor_delta] <;>
      ring_nf
  · cases score <;>
      simp only [RevisionSettings.transform, RevisionSettings.calculate_new_memorisation_factor] <;>
      exact le_max_left _ _

/-- Claim C6: in every call of calculate_possible_intervals (any scheduling
state with nonnegative interval, any coefficients, any clock value) the three
candidates hard, pass, easy are strictly increasing, each of pass and easy
being at least its predecessor plus one through the fallback term. -/
theorem c6_interval_ladder (rs : RevisionSettings) (co : IntervalCoefficients)
    (now : ℤ) (h : 0 ≤ rs.interval) :
    (rs.calculate_possible_intervals co now).hard_interval + 1
        ≤ (rs.calculate_possible_intervals co now).pass_interval
    ∧ (rs.calculate_possible_intervals co now).pass_interval + 1
        ≤ (rs.calculate_possible_intervals co now).easy_interval
    ∧ (rs.calculate_possible_intervals co now).hard_interval
        < (rs.calculate_possible_intervals co now).pass_interval
    ∧ (rs.calculate_possible_intervals co now).pass_interval
        < (rs.calculate_possible_intervals co now).easy_interval := by
  have hp : (rs.calculate_possible_intervals co now).hard_interval + 1
      ≤ (rs.calculate_possible_intervals co now).pass_interval := by
    simp only [RevisionSettings.calculate_possible_intervals,
      RevisionSettings.calculate_pass_interval]
    exact le_max_left _ _
  have he : (rs.calculate_possible_intervals co now).pass_interval + 1
      ≤ (rs.calculate_possible_intervals co now).easy_interval := by
    simp only [RevisionSettings.calculate_possible_intervals,
      RevisionSettings.calculate_easy_interval]
    exact le_max_left _ _
  exact ⟨hp, he, by linarith, by linarith⟩

/-- Witness for c6_interval_ladder at a concrete input. -/
theorem c6_interval_ladder_witness :
    ((⟨0, 1, 2000⟩ : RevisionSettings).calculate_possible_intervals ccoeffs 345600).hard_interval + 1
        ≤ ((⟨0, 1, 2000⟩ : RevisionSettings).calculate_possible_intervals ccoeffs 345600).pass_interval
    ∧ ((⟨0, 1, 2000⟩ : RevisionSettings).calculate_possible_intervals ccoeffs 345600).pass_interval + 1
        ≤ ((⟨0, 1, 2000⟩ : RevisionSettings).calculate_possible_intervals ccoeffs 345600).easy_interval
    ∧ ((⟨0, 1, 2000⟩ : RevisionSettings).calculate_possible_intervals ccoeffs 345600).hard_interval
        < ((⟨0, 1, 2000⟩ : RevisionSettings).calculate_possible_intervals ccoeffs 345600).pass_interval
    ∧ ((⟨0, 1, 2000⟩ : RevisionSettings).calculate_possible_intervals ccoeffs 345600).pass_interval
        < ((⟨0, 1, 2000⟩ : RevisionSettings).calculate_possible_intervals ccoeffs 345600).easy_interval :=
  c6_interval_ladder ⟨0, 1, 2000⟩ ccoeffs 345600 (by decide)

/-- Claim C7: for every scheduling state, outcome, coefficient set and clock
value, the due date produced by transform is the previous due date plus the
new interval converted to seconds — the base of the addition is the stored
due date, not the clock value (calculate_new_due_date does not read the
clock at all), and the interval stored alongside is exactly that new
interval. -/
theorem c7_due_anchored_to_previous_due (rs : RevisionSettings) (score : Score)
    (co : IntervalCoefficients) (now : ℤ) :
    (rs.transform score co now).due
        = rs.due + truncToInt (60 * 60 * 24 * rs.calculate_new_interval score co now)
    ∧ (rs.transform score co now).interval = rs.calculate_new_interval score co now :=
  ⟨rfl, rfl⟩

/-! Claim C9: construction of the hand. -/

/-- Claim C9: Hand construction returns EmptyDeck exactly when no card of the
pool carries the deck name in its membership set; NoDueCards exactly when at
least one card matches the deck but none of the matching cards is due; and
otherwise succeeds with a queue that is a permutation of exactly the cards
that both carry the membership token and are due (the injected shuffle is
assumed to permute its input), carrying the deck coefficients. -/
theorem c9_hand_from_filters (deck : Deck) (cards : List Card) (now : ℤ)
    (shuffle_cards : List Card → List Card)
    (hshuffle : ∀ l, (shuffle_cards l).Perm l) :
    (Hand.fromDeck deck cards now shuffle_cards = Except.error (HandError.emptyDeck deck.name)
        ↔ ∀ c ∈ cards, c.in_deck deck.name = false)
    ∧ (Hand.fromDeck deck cards now shuffle_cards = Except.error (HandError.noDueCards deck.name)
        ↔ ((∃ c ∈ cards, c.in_deck deck.name = true)
            ∧ ∀ c ∈ cards, c.in_deck deck.name = true → c.is_due now = false))
    ∧ (∀ h, Hand.fromDeck deck cards now shuffle_cards = Except.ok h →
        h.queue.Perm (cards.filter (fun c => c.in_deck deck.name && c.is_due now))
        ∧ h.interval_coefficients = deck.interval_coefficients)
    ∧ ((∃ c ∈ cards, c.in_deck deck.name = true ∧ c.is_due now = true) →
        ∃ h, Hand.fromDeck deck cards now shuffle_cards = Except.ok h) := by
  rcases h1 : cards.filter (fun c => c.in_deck deck.name) with _ | ⟨c0, dtl⟩
  · -- no card belongs to the deck
    have hall : ∀ c ∈ cards, c.in_deck deck.name = false := by
      intro c hc
      have := List.filter_eq_nil_iff.mp h1 c hc
      simpa using this
    have hres : Hand.fromDeck deck cards now shuffle_cards
        = Except.error (HandError.emptyDeck deck.name) := by
      simp [Hand.fromDeck, Hand.filter_cards_in_deck, Hand.filter_due_cards, h1]
    refine ⟨⟨fun _ => hall, fun _ => hres⟩, ?_, ?_, ?_⟩
    · constructor
      · intro habs
        rw [hres] at habs
        cases habs
      · rintro ⟨⟨c, hc, hcd⟩, -⟩
        rw [hall c hc] at hcd
        cases hcd
    · intro h habs
      rw [hres] at habs
      cases habs
    · rintro ⟨c, hc, hcd, -⟩
      rw [hall c hc] at hcd
      cases hcd
  · -- at least one card belongs to the deck
    have hc0 : c0 ∈ cards ∧ c0.in_deck deck.name = true := by
      have : c0 ∈ cards.filter (fun c => c.in_deck deck.name) := by
        rw [h1]; exact List.mem_cons_self c0 dtl
      simpa using List.mem_filter.mp this
    have hnotall : ¬ (∀ c ∈ cards, c.in_deck deck.name = false) := by
      intro hall
      rw [hall c0 hc0.1] at hc0
      cases hc0.2
    rcases h2 : (c0 :: dtl).filter (fun c => c.is_due now) with _ | ⟨d0, dutl⟩
    · -- deck cards exist but none is due
      have hnone : ∀ c ∈ cards, c.in_deck deck.name = true → c.is_due now = false := by
        intro c hc hcd
        have hmem : c ∈ c0 :: dtl := by
          rw [← h1]
          exact List.mem_filter.mpr ⟨hc, hcd⟩
        have := List.filter_eq_nil_iff.mp h2 c hmem
        simpa using this
      have hres : Hand.fromDeck deck cards now shuffle_cards
          = Except.error (HandError.noDueCards deck.name) := by
        simp [Hand.fromDeck, Hand.filter_cards_in_deck, Hand.filter_due_cards, h1, h2]
      refine ⟨?_, ?_, ?_, ?_⟩
      · constructor
        · intro habs
          rw [hres] at habs
          cases habs
        · intro hall
          exact absurd hall hnotall
      · exact ⟨fun _ => ⟨⟨c0, hc0.1, hc0.2⟩, hnone⟩, fun _ => hres⟩
      · intro h habs
        rw [hres] at habs
        cases habs
      · rintro ⟨c, hc, hcd, hdue⟩
        rw [hnone c hc hcd] at hdue
        cases hdue
    · -- at least one deck card is due
      have hd0 : d0 ∈ cards ∧ d0.in_deck deck.name = true ∧ d0.is_due now = true := by
        have hmem : d0 ∈ (c0 :: dtl).filter (fun c => c.is_due now) := by
          rw [h2]; exact List.mem_cons_self d0 dutl
        have h3 := List.mem_filter.mp hmem
        have h4 : d0 ∈ cards.filter (fun c => c.in_deck deck.name) := by
          rw [h1]; exact h3.1
        have h5 := List.mem_filter.mp h4
        exact ⟨h5.1, h5.2, h3.2⟩
      have hres : Hand.fromDeck deck cards now shuffle_cards
          = Except.ok ⟨shuffle_cards (d0 :: dutl), deck.interval_coefficients⟩ := by
        simp [Hand.fromDeck, Hand.filter_cards_in_deck, Hand.filter_due_cards, h1, h2]
      have hqueue : d0 :: dutl = cards.filter (fun c => c.in_deck deck.name && c.is_due now) := by
        rw [← h2, ← h1, List.filter_filter]
        exact List.filter_congr (fun a _ => Bool.and_comm _ _)
      refine ⟨?_, ?_, ?_, fun _ => ⟨_, hres⟩⟩
      · constructor
        · intro habs
          rw [hres] at habs
          cases habs
        · intro hall
          exact absurd hall hnotall
      · constructor
        · intro habs
          rw [hres] at habs
          cases habs
        · rintro ⟨-, hnone⟩
          rw [hnone d0 hd0.1 hd0.2.1] at hd0
          cases hd0.2.2
      · intro h hok
        rw [hres] at hok
        cases hok
        exact ⟨hqueue ▸ hshuffle (d0 :: dutl), rfl⟩

/-- Witness for c9_hand_from_filters at a concrete input: one due card in the
deck, identity shuffle. -/
theorem c9_hand_from_filters_witness :
    (Hand.fromDeck deckD [cardA] 0 id = Except.error (HandError.emptyDeck deckD.name)
        ↔ ∀ c ∈ [cardA], c.in_deck deckD.name = false)
    ∧ (Hand.fromDeck deckD [cardA] 0 id = Except.error (HandError.noDueCards deckD.name)
        ↔ ((∃ c ∈ [cardA], c.in_deck deckD.name = true)
            ∧ ∀ c ∈ [cardA], c.in_deck deckD.name = true → c.is_due 0 = false))
    ∧ (∀ h, Hand.fromDeck deckD [cardA] 0 id = Except.ok h →
        h.queue.Perm (([cardA] : List Card).filter (fun c => c.in_deck deckD.name && c.is_due 0))
        ∧ h.interval_coefficients = deckD.interval_coefficients)
    ∧ ((∃ c ∈ [cardA], c.in_deck deckD.name = true ∧ c.is_due 0 = true) →
        ∃ h, Hand.fromDeck deckD [cardA] 0 id = Except.ok h) :=
  c9_hand_from_filters deckD [cardA] 0 id (fun l => List.Perm.refl l)

/-! Claim C10: merge rules of the state store. -/

theorem override_matching_values_not_mem (m : String → Option Card) (items : List Card)
    (k : String) (h : ∀ i ∈ items, i.uid ≠ k) :
    override_matching_values m items k = m k := by
  induction items generalizing m with
  | nil => rfl
  | cons j rest ih =>
    have hj : j.uid ≠ k := h j (List.mem_cons_self j rest)
    have hrest : ∀ i ∈ rest, i.uid ≠ k := fun i hi => h i (List.mem_cons_of_mem j hi)
    simp only [override_matching_values, List.foldl_cons] at ih ⊢
    rw [ih _ hrest]
    have hne : ¬ (k = j.uid) := fun hk => hj hk.symm
    simp [hne]

theorem override_matching_values_mem (m : String → Option Card) (items : List Card)
    (i : Card) (hnd : (items.map Card.uid).Nodup) (hm : i ∈ items) :
    override_matching_values m items i.uid = some i := by
  induction items generalizing m with
  | nil => cases hm
  | cons j rest ih =>
    simp only [List.map_cons, List.nodup_cons] at hnd
    rcases List.mem_cons.mp hm with rfl | hm2
    · have hnone : ∀ x ∈ rest, x.uid ≠ i.uid := by
        intro x hx heq
        exact hnd.1 (heq ▸ List.mem_map_of_mem Card.uid hx)
      simp only [override_matching_values, List.foldl_cons]
      rw [show ((rest.foldl (fun m i => fun k => if k = i.uid then some i else m k)
          (fun k => if k = i.uid then some i else m k)) i.uid
            = override_matching_values (fun k => if k = i.uid then some i else m k) rest i.uid)
        from rfl]
      rw [override_matching_values_not_mem _ _ _ hnone]
      simp
    · simp only [override_matching_values, List.foldl_cons] at ih ⊢
      exact ih _ hnd.2 hm2

/-- Claim C10: in the card merge, an incoming card whose uid matches a stored
card ends up in the result under that uid with its own content (path, decks,
question, answer) and the entire scheduling sub-record of the stored card,
while an incoming card with no stored match passes through unchanged
(incoming uids assumed distinct, as they are source paths). -/
theorem c10_merge_preserves_scheduling (map : String → Option Card) (items : List Card)
    (i : Card) (hnd : (items.map Card.uid).Nodup) (hm : i ∈ items) :
    (∀ e, map i.uid = some e →
        merge_matching_values map items i.uid
          = some ⟨i.path, i.decks, i.question, i.answer, e.revision_settings⟩)
    ∧ (map i.uid = none → merge_matching_values map items i.uid = some i) := by
  have hf : ∀ j : Card,
      ((fun (j : Card) => match map j.uid with
        | some item => j.merge item
        | none => j) j).uid = j.uid := by
    intro j
    show (match map j.uid with
      | some item => j.merge item
      | none => j).uid = j.uid
    rcases map j.uid with _ | e <;> rfl
  have hnd2 : ((items.map (fun (j : Card) => match map j.uid with
      | some item => j.merge item
      | none => j)).map Card.uid).Nodup := by
    rw [List.map_map]
    have : (Card.uid ∘ fun j => match map j.uid with
        | some item => j.merge item
        | none => j) = Card.uid := funext hf
    rw [this]
    exact hnd
  have hmem2 : (fun (j : Card) => match map j.uid with
      | some item => j.merge item
      | none => j) i ∈ items.map (fun (j : Card) => match map j.uid with
      | some item => j.merge item
      | none => j) := List.mem_map_of_mem _ hm
  have hover := override_matching_values_mem map _ _ hnd2 hmem2
  rw [hf i] at hover
  constructor
  · intro e he
    have : merge_matching_values map items i.uid
        = some ((fun (j : Card) => match map j.uid with
          | some item => j.merge item
          | none => j) i) := hover
    rw [this]
    simp only [he]
    rfl
  · intro he
    have : merge_matching_values map items i.uid
        = some ((fun (j : Card) => match map j.uid with
          | some item => j.merge item
          | none => j) i) := hover
    rw [this]
    simp only [he]

/-- Witness for c10_merge_preserves_scheduling at a concrete input. -/
theorem c10_merge_preserves_scheduling_witness :
    (∀ e, storedMap cardIncoming.uid = some e →
        merge_matching_values storedMap [cardIncoming] cardIncoming.uid
          = some ⟨cardIncoming.path, cardIncoming.decks, cardIncoming.question,
              cardIncoming.answer, e.revision_settings⟩)
    ∧ (storedMap cardIncoming.uid = none →
        merge_matching_values storedMap [cardIncoming] cardIncoming.uid = some cardIncoming) :=
  c10_merge_preserves_scheduling storedMap [cardIncoming] cardIncoming
    (by simp) (by simp)

end Vultan
